import Mathlib

/-!
# SmartMark-Chat: shallow embedding and verification

This file embeds the core of `src/main.ts` of the SmartMark-Chat Obsidian
plugin in Lean 4 and proves properties of it:

* the reverse context scanner `getContextMessages` (main.ts lines 344-444)
  together with its helper `saveCollectedContent` (lines 331-342);
* the streaming insertion writer `updateStreamingContent` (lines 447-488)
  and `finalizeStreamingContent` (lines 491-533), plus the stream-state
  reset performed at the start of `generateResponse` (lines 155-162).

JavaScript strings are modelled by Lean `String` (a list of characters);
the JS string primitives used by the source (`trim`, `startsWith`,
`endsWith`, `includes`, `substring`, `replace(/…/g, …)`) are modelled by
executable functions over `String.data` defined below.  The Obsidian
editor is modelled as a list of lines (`getLine i` becomes `List.getD`),
and document mutations performed by the writer are modelled as an emitted
list of `replaceRange` events `(position, text)` in call order.
-/

namespace SmartMark

/-! ## JS string primitives -/

/-- JS `String.prototype.trim` on the character list: drop whitespace from
the front, then from the back (`List.rdropWhile`). -/
def trimChars (l : List Char) : List Char :=
  (l.dropWhile Char.isWhitespace).rdropWhile Char.isWhitespace

/-- JS `line.trim()`. -/
def jsTrim (s : String) : String :=
  ⟨trimChars s.data⟩

/-- JS `s.startsWith(pre)`. -/
def jsStartsWith (s pre : String) : Bool :=
  pre.data.isPrefixOf s.data

/-- JS `s.endsWith(suf)`. -/
def jsEndsWith (s suf : String) : Bool :=
  suf.data.isSuffixOf s.data

/-- Substring search on character lists: does `pat` occur contiguously? -/
def charsContain (pat : List Char) : List Char → Bool
  | [] => pat.isEmpty
  | c :: cs => pat.isPrefixOf (c :: cs) || charsContain pat cs

/-- JS `s.includes(pat)`. -/
def jsIncludes (s pat : String) : Bool :=
  charsContain pat.data s.data

/-- JS `s.substring(n)` (drop the first `n` UTF-16 units; our inputs are
ASCII so characters coincide). -/
def jsSubstringFrom (s : String) (n : Nat) : String :=
  ⟨s.data.drop n⟩

/-- Replace every (non-overlapping, leftmost-first) occurrence of `pat` by
`rep`, as JS `s.replace(/pat/g, rep)` does for a literal pattern.  The
`fuel` argument only makes the recursion structural; every step strictly
shortens the scanned list, so `fuel = l.length` never runs out. -/
def replaceChars (pat rep : List Char) : Nat → List Char → List Char
  | _, [] => []
  | 0, c :: cs => c :: cs
  | fuel + 1, c :: cs =>
    if pat.isPrefixOf (c :: cs) then
      rep ++ replaceChars pat rep fuel (List.drop (pat.length - 1) cs)
    else
      c :: replaceChars pat rep fuel cs

/-- JS `s.replace(/pat/g, rep)` for a literal pattern `pat`. -/
def jsReplaceAll (s pat rep : String) : String :=
  ⟨replaceChars pat.data rep.data s.data.length s.data⟩

/-! ## Data model of the scanner -/

/-- One element of the messages array built by `getContextMessages`:
`{role: string, content: string}` (roles are the duck-typed strings
`"user"` / `"assistant"` of the source). -/
structure Msg where
  role : String
  content : String
deriving Repr, DecidableEq

/-- The mutable locals of `getContextMessages` (main.ts lines 349-351):
`messages`, `collectingContent`, `collectingMode`.  `collectingMode` keeps
the source's duck-typed strings `'user' | 'assistant' | 'none'`. -/
structure ScanState where
  messages : List Msg
  collectingContent : String
  collectingMode : String
deriving Repr, DecidableEq

/-- main.ts lines 331-342, `saveCollectedContent`: if the collected content
is non-empty after trimming (JS string truthiness of
`collectingContent.trim()`) and a mode is active, `unshift` the collected
turn onto the messages array. -/
def saveCollectedContent (messages : List Msg) (collectingContent : String)
    (collectingMode : String) : List Msg :=
  if jsTrim collectingContent ≠ "" ∧ collectingMode ≠ "none" then
    { role := collectingMode, content := jsTrim collectingContent } :: messages
  else
    messages

/-- The body of the scanning loop of `getContextMessages` for one line
(main.ts lines 355-437).  `none` models the `break` taken on the hard
terminator (a line whose trimmed form starts with `=-=`, lines 358-362);
`some st` gives the state after the line is processed.  Branches, in source
order: `===` family (lines 365-392), `= =` family (lines 394-421),
`-----` separator (lines 422-429), accumulation in a collecting mode
(lines 430-437), and the implicit "do nothing" default. -/
def processLine (st : ScanState) (line : String) : Option ScanState :=
  if jsStartsWith (jsTrim line) "=-=" = true then
    none
  else if jsIncludes line "===" = true then
    if jsTrim line = "===" then
      some { messages := saveCollectedContent st.messages st.collectingContent st.collectingMode,
             collectingContent := "", collectingMode := "user" }
    else if jsStartsWith line "===" = true ∧ jsEndsWith line "===" = false then
      some { messages := { role := "user", content := jsTrim (jsSubstringFrom line 3) } ::
               saveCollectedContent st.messages st.collectingContent st.collectingMode,
             collectingContent := "", collectingMode := "none" }
    else
      some st
  else if jsIncludes line "= =" = true then
    if jsTrim line = "= =" then
      some { messages := saveCollectedContent st.messages st.collectingContent st.collectingMode,
             collectingContent := "", collectingMode := "assistant" }
    else if jsStartsWith line "= =" = true ∧ jsEndsWith line "= =" = false then
      some { messages := { role := "assistant", content := jsTrim (jsSubstringFrom line 3) } ::
               saveCollectedContent st.messages st.collectingContent st.collectingMode,
             collectingContent := "", collectingMode := "none" }
    else
      some st
  else if jsStartsWith line "-----" = true then
    some { messages := saveCollectedContent st.messages st.collectingContent st.collectingMode,
           collectingContent := "", collectingMode := "none" }
  else if st.collectingMode ≠ "none" then
    some { st with collectingContent :=
             if st.collectingContent ≠ "" then line ++ "\n" ++ st.collectingContent
             else line }
  else
    some st

/-- The scanning loop of `getContextMessages` (main.ts line 354):
`for (let i = currentLine; i >= 0 && messages.length < contextLines * 2; i--)`.
The budget test is re-checked before every iteration; `i` walks from the
cursor line down to `0`; line `i` is read with `doc.getD i ""`
(the editor's `getLine`). -/
def scanLoop (doc : List String) (contextLines : Nat) : Nat → ScanState → ScanState
  | 0, st =>
    if st.messages.length < contextLines * 2 then
      match processLine st (doc.getD 0 "") with
      | none => st
      | some st' => st'
    else st
  | i + 1, st =>
    if st.messages.length < contextLines * 2 then
      match processLine st (doc.getD (i + 1) "") with
      | none => st
      | some st' => scanLoop doc contextLines i st'
    else st

/-- main.ts lines 344-444, `getContextMessages`: run the backward scan from
the cursor line with empty initial state, then flush any still-unsaved
collected content (line 441) and return the messages array.  The document
is the editor's line buffer and `currentLine` the cursor line;
`contextLines` is the `contextLines` setting. -/
def getContextMessages (doc : List String) (currentLine : Nat) (contextLines : Nat) : List Msg :=
  let st := scanLoop doc contextLines currentLine
    { messages := [], collectingContent := "", collectingMode := "none" }
  saveCollectedContent st.messages st.collectingContent st.collectingMode

example : getContextMessages ["=== What is 2+2?"] 0 1 =
    [{ role := "user", content := "What is 2+2?" }] := by decide

example : getContextMessages ["-----", "Paris is the capital.", "= ="] 2 1 =
    [{ role := "assistant", content := "Paris is the capital." }] := by decide

/-! ## Data model of the streaming insertion writer -/

/-- An editor position `{line, ch}`. -/
structure Pos where
  line : Nat
  ch : Nat
deriving Repr, DecidableEq

/-- The plugin fields that carry the streaming writer's state
(main.ts lines 39-43): `streamInsertPosition`, `lastContentLength`,
`isStreaming`. -/
structure StreamState where
  streamInsertPosition : Option Pos
  lastContentLength : Nat
  isStreaming : Bool
deriving Repr, DecidableEq

/-- The slice of the editor the writer's initialization reads: the line
buffer and the cursor line (`editor.getCursor().line`, `doc.lastLine()`,
`doc.getLine(lastLine).length`). -/
structure EditorView where
  lines : List String
  cursorLine : Nat
deriving Repr, DecidableEq

/-- main.ts lines 480-483: rewrite the thought-tag pair into the bracket
form before insertion. -/
def processThoughtTags (newContent : String) : String :=
  jsReplaceAll (jsReplaceAll newContent "<thought>" "[thought]") "</thought>" "[/thought]"

/-- main.ts lines 447-488, `updateStreamingContent`.  The result is the new
stream state together with the list of `replaceRange` events
`(position, text)` issued, in call order.  When no insertion position is
set yet, the first chunk initializes it (lines 452-472): if the cursor is
on (or past) the last line a newline is first appended, then the block
separator (`"\n-----\n"` in elegant mode, else `"-----\n"`) is written at
the fresh position whose `ch` is then set to the separator's length.
Afterwards (both paths, lines 475-487) the thought-tag-processed chunk is
written at `streamInsertPosition.ch + lastContentLength` on the fixed line,
and `lastContentLength` grows by the processed length.  The
`if (!editor) return;` guard (line 449) is the `hasEditor` parameter. -/
def updateStreamingContent (hasEditor elegantMode : Bool) (ed : EditorView)
    (st : StreamState) (newContent : String) : StreamState × List (Pos × String) :=
  if hasEditor = false then
    (st, [])
  else
    match st.streamInsertPosition with
    | some p =>
      let currentPos : Pos := ⟨p.line, p.ch + st.lastContentLength⟩
      let processedContent := processThoughtTags newContent
      ({ st with lastContentLength := st.lastContentLength + processedContent.length },
       [(currentPos, processedContent)])
    | none =>
      let lastLine := ed.lines.length - 1
      let lastLineLength := (ed.lines.getD lastLine "").length
      let initWrites : List (Pos × String) :=
        if lastLine ≤ ed.cursorLine then [(⟨lastLine, lastLineLength⟩, "\n")] else []
      let basePos : Pos :=
        if lastLine ≤ ed.cursorLine then ⟨lastLine + 1, 0⟩ else ⟨ed.cursorLine + 1, 0⟩
      let separator := if elegantMode then "\n-----\n" else "-----\n"
      let p : Pos := ⟨basePos.line, separator.length⟩
      let currentPos : Pos := ⟨p.line, p.ch + st.lastContentLength⟩
      let processedContent := processThoughtTags newContent
      ({ st with streamInsertPosition := some p,
                 lastContentLength := st.lastContentLength + processedContent.length },
       initWrites ++ [(basePos, separator), (currentPos, processedContent)])

/-- Feeding a whole list of chunks to `updateStreamingContent` in order,
as the chunk-consumption loop of `generateResponse` does (main.ts
lines 261-283), collecting all `replaceRange` events. -/
def appendAll (hasEditor elegantMode : Bool) (ed : EditorView) :
    StreamState → List String → StreamState × List (Pos × String)
  | st, [] => (st, [])
  | st, c :: cs =>
    let r := updateStreamingContent hasEditor elegantMode ed st c
    let r' := appendAll hasEditor elegantMode ed r.1 cs
    (r'.1, r.2 ++ r'.2)

/-- main.ts lines 491-533, `finalizeStreamingContent`.  Returns the
`replaceRange` events issued.  The guard
`if (!editor || !this.streamInsertPosition) return;` (line 493) makes the
call return without writing when no editor is active or no insertion
position is set.  Otherwise `"\n= ="`, optionally followed by the
generated timestamp comment line and by the `"\n===Continue...\n-----\n"`
tail (when a separator was auto-added this session), is written at the
current write head.  The timestamp line's text (lines 505-524) is built
from the wall clock, so it is abstracted here as the `timestampComment`
parameter; only its placement is modelled. -/
def finalizeStreamingContent (hasEditor : Bool) (st : StreamState)
    (enableTimestamp : Bool) (timestampComment : String)
    (addedSeparatorInCurrentSession : Bool) : List (Pos × String) :=
  if hasEditor = false then
    []
  else
    match st.streamInsertPosition with
    | none => []
    | some p =>
      let endPos : Pos := ⟨p.line, p.ch + st.lastContentLength⟩
      let finalContent := "\n= ="
        ++ (if enableTimestamp then "\n" ++ timestampComment else "")
        ++ (if addedSeparatorInCurrentSession then "\n===Continue...\n-----\n" else "")
      [(endPos, finalContent)]

/-- main.ts lines 155-162: the very first statements of `generateResponse`
reset the streaming fields (`streamInsertPosition = null`,
`lastContentLength = 0`, `isStreaming = true`) unconditionally — no check
of the previous state is performed before a new generation starts. -/
def generateResponseInitState (_st : StreamState) : StreamState :=
  { streamInsertPosition := none, lastContentLength := 0, isStreaming := true }

/-! ## Helper lemmas: `saveCollectedContent` and single steps -/

lemma saveCollectedContent_length_le (msgs : List Msg) (c mode : String) :
    (saveCollectedContent msgs c mode).length ≤ msgs.length + 1 := by
  unfold saveCollectedContent
  split_ifs <;> simp

lemma length_le_saveCollectedContent (msgs : List Msg) (c mode : String) :
    msgs.length ≤ (saveCollectedContent msgs c mode).length := by
  unfold saveCollectedContent
  split_ifs <;> simp

/-- A single loop step grows the messages array by at most two entries, and
any step that grows it resets the collected content to the empty string. -/
lemma processLine_step_bound (st : ScanState) (line : String) (st' : ScanState)
    (h : processLine st line = some st') :
    st'.messages.length ≤ st.messages.length + 2 ∧
      (st.messages.length < st'.messages.length → st'.collectingContent = "") := by
  have hs := saveCollectedContent_length_le st.messages st.collectingContent st.collectingMode
  unfold processLine at h
  split_ifs at h <;> (injection h with h; subst h) <;>
    exact ⟨by simp; try omega, fun hlt => by first | rfl | simp at hlt⟩

/-- Loop invariant for the budget: the messages array never exceeds
`2k + 1` entries, and whenever it already holds at least `2k` entries the
collected-content buffer is empty (each step pushing it past the re-checked
`< 2k` bound resets the buffer). -/
lemma scanLoop_budget_invariant (doc : List String) (k : Nat) :
    ∀ (i : Nat) (st : ScanState),
      st.messages.length ≤ 2 * k + 1 →
      (2 * k ≤ st.messages.length → st.collectingContent = "") →
      (scanLoop doc k i st).messages.length ≤ 2 * k + 1 ∧
        (2 * k ≤ (scanLoop doc k i st).messages.length →
          (scanLoop doc k i st).collectingContent = "") := by
  intro i
  induction i with
  | zero =>
    intro st h1 h2
    unfold scanLoop
    split_ifs with hb
    · rcases hp : processLine st (doc.getD 0 "") with _ | st'
      · simpa [hp] using ⟨h1, h2⟩
      · have hstep := processLine_step_bound st (doc.getD 0 "") st' hp
        simp only [hp]
        rw [Nat.mul_comm] at hb
        exact ⟨by omega, fun hge => hstep.2 (by omega)⟩
    · exact ⟨h1, h2⟩
  | succ i ih =>
    intro st h1 h2
    unfold scanLoop
    split_ifs with hb
    · rcases hp : processLine st (doc.getD (i + 1) "") with _ | st'
      · simpa [hp] using ⟨h1, h2⟩
      · have hstep := processLine_step_bound st (doc.getD (i + 1) "") st' hp
        simp only [hp]
        rw [Nat.mul_comm] at hb
        exact ih st' (by omega) (fun hge => hstep.2 (by omega))
    · exact ⟨h1, h2⟩

/-- **C1** — corrected budget bound.  The scan's loop re-checks
`messages.length < contextLines * 2` before each line, but a single
iteration on an inline marker line can flush the pending buffer *and* emit
the inline turn, adding two entries; the post-loop flush can add one more
when the loop ended below the budget.  Hence the tight bound is
`2 * k + 1`, not `2 * k`. -/
theorem getContextMessages_length_le (doc : List String) (currentLine k : Nat) :
    (getContextMessages doc currentLine k).length ≤ 2 * k + 1 := by
  simp only [getContextMessages]
  have h := scanLoop_budget_invariant doc k currentLine
    { messages := [], collectingContent := "", collectingMode := "none" }
    (by simp) (by intro h; simp)
  set r := scanLoop doc k currentLine
    { messages := [], collectingContent := "", collectingMode := "none" } with hr
  by_cases hge : 2 * k ≤ r.messages.length
  · have hc := h.2 hge
    have : saveCollectedContent r.messages r.collectingContent r.collectingMode = r.messages := by
      rw [hc]
      unfold saveCollectedContent
      simp [jsTrim, trimChars]
    rw [this]
    exact h.1
  · have := saveCollectedContent_length_le r.messages r.collectingContent r.collectingMode
    omega

/-- **C1** — counterexample to the claim as stated: with budget `k = 1`
the document `["pad", "=== q", "a", "= =", "= = hi"]` scanned from line 4
yields three turns, exceeding `2 * k = 2`.  (At the check the array holds
one turn, then the single-line `=== q` both flushes the pending assistant
buffer and emits the user turn.) -/
theorem getContextMessages_budget_exceeded :
    ¬ ((getContextMessages ["pad", "=== q", "a", "= =", "= = hi"] 4 1).length ≤ 2 * 1) := by
  decide

/-! ## Helper lemmas: the JS string primitives -/

lemma charsContain_of_isPrefixOf (pat l : List Char) (h : pat.isPrefixOf l = true) :
    charsContain pat l = true := by
  cases l with
  | nil =>
    cases pat with
    | nil => rfl
    | cons c cs => simp [List.isPrefixOf] at h
  | cons c cs => simp [charsContain, h]

lemma startsWith_data (s pre : String) (h : jsStartsWith s pre = true) :
    s.data = pre.data ++ s.data.drop pre.data.length := by
  obtain ⟨t, ht⟩ := List.isPrefixOf_iff_prefix.mp h
  rw [← ht, List.drop_left]

lemma dropWhile_append_of_all {p : Char → Bool} (a b : List Char)
    (h : ∀ x ∈ a, p x = true) : (a ++ b).dropWhile p = b.dropWhile p := by
  induction a with
  | nil => rfl
  | cons c cs ih =>
    rw [List.cons_append, List.dropWhile_cons]
    simp only [h c (List.mem_cons_self c cs), if_true]
    exact ih (fun x hx => h x (List.mem_cons_of_mem c hx))

lemma rdropWhile_append_ws (l rest : List Char)
    (hrest : ∀ x ∈ rest, Char.isWhitespace x = true) :
    (l ++ rest).rdropWhile Char.isWhitespace = l.rdropWhile Char.isWhitespace := by
  induction rest using List.reverseRecOn with
  | nil => simp
  | append_singleton rs x ih =>
    rw [← List.append_assoc, List.rdropWhile_concat_pos _ _ x (hrest x (by simp))]
    exact ih (fun y hy => hrest y (by simp [hy]))

/-- Trimming a string made of a marker (non-whitespace first and last
character) followed by only whitespace yields the marker. -/
lemma trimChars_marker_pad (c : Char) (m rest : List Char)
    (hc : Char.isWhitespace c = false)
    (hlast : Char.isWhitespace ((c :: m).getLast (by simp)) = false)
    (hrest : ∀ x ∈ rest, Char.isWhitespace x = true) :
    trimChars ((c :: m) ++ rest) = c :: m := by
  unfold trimChars
  rw [List.cons_append, List.dropWhile_cons]
  simp only [hc, Bool.false_eq_true, if_false]
  rw [← List.cons_append, rdropWhile_append_ws _ _ hrest]
  exact List.rdropWhile_eq_self_iff.mpr (fun hl => by simp [hlast])

lemma all_ws_of_trimChars_eq_nil (l : List Char) (h : trimChars l = []) :
    ∀ x ∈ l, Char.isWhitespace x = true := by
  unfold trimChars at h
  rw [List.rdropWhile_eq_nil_iff] at h
  intro x hx
  rw [← List.takeWhile_append_dropWhile Char.isWhitespace l] at hx
  rcases List.mem_append.mp hx with htw | hdw
  · exact List.mem_takeWhile_imp htw
  · exact h x hdw

lemma trimChars_idem (l : List Char) : trimChars (trimChars l) = trimChars l := by
  show ((trimChars l).dropWhile Char.isWhitespace).rdropWhile Char.isWhitespace = trimChars l
  have h1 : (trimChars l).dropWhile Char.isWhitespace = trimChars l := by
    cases hE : trimChars l with
    | nil => rfl
    | cons c d =>
      have hpre : trimChars l <+: l.dropWhile Char.isWhitespace :=
        List.rdropWhile_prefix _ _
      rw [hE] at hpre
      obtain ⟨t, ht⟩ := hpre
      have hne : l.dropWhile Char.isWhitespace ≠ [] := by
        rw [← ht]; simp
      have hc : Char.isWhitespace c = false := by
        have h0 := List.head_dropWhile_not Char.isWhitespace l hne
        revert h0 hne
        rw [← ht]
        intro hne h0
        simpa using h0
      rw [List.dropWhile_cons]
      simp [hc]
  rw [h1]
  exact List.rdropWhile_idempotent _ _

lemma jsTrim_jsTrim (s : String) : jsTrim (jsTrim s) = jsTrim s := by
  unfold jsTrim
  exact congrArg String.mk (trimChars_idem s.data)

/-- An inline-marker line's payload cannot trim to the empty string: if the
text after the marker were all whitespace, the whole line would trim to the
bare marker, which the inline branch has already excluded. -/
lemma inline_payload_ne_empty (line marker : String) (c : Char) (m : List Char)
    (hm : marker.data = c :: m)
    (hc : Char.isWhitespace c = false)
    (hlast : Char.isWhitespace ((c :: m).getLast (by simp)) = false)
    (hstart : jsStartsWith line marker = true)
    (hne : jsTrim line ≠ marker) :
    jsTrim (jsSubstringFrom line marker.length) ≠ "" := by
  intro hempty
  apply hne
  have hrest : ∀ x ∈ line.data.drop marker.length, Char.isWhitespace x = true := by
    have h0 : trimChars (line.data.drop marker.length) = [] := by
      have := congrArg String.data hempty
      simpa [jsTrim, jsSubstringFrom] using this
    exact all_ws_of_trimChars_eq_nil _ h0
  have hdata : line.data = (c :: m) ++ line.data.drop marker.length := by
    have h := startsWith_data line marker hstart
    rw [hm] at h
    simpa [String.length, hm] using h
  have htrim : trimChars line.data = c :: m :=
    hdata ▸ trimChars_marker_pad c m _ hc hlast hrest
  calc jsTrim line = ⟨trimChars line.data⟩ := rfl
    _ = ⟨c :: m⟩ := congrArg String.mk htrim
    _ = ⟨marker.data⟩ := congrArg String.mk hm.symm
    _ = marker := rfl

/-- A line that starts with `===` cannot trim to something starting with
`=-=`: trimming removes no leading character here, so both would have to be
3-character prefixes of the same list. -/
lemma trim_not_terminator_of_triple_eq (line : String)
    (hstart : jsStartsWith line "===" = true) :
    jsStartsWith (jsTrim line) "=-=" = false := by
  by_contra hcon
  rw [Bool.not_eq_false] at hcon
  have h1 : ("=-=".data) <+: (jsTrim line).data := List.isPrefixOf_iff_prefix.mp hcon
  have h2 : (jsTrim line).data <+: line.data.dropWhile Char.isWhitespace :=
    List.rdropWhile_prefix _ _
  have h3 : line.data = '=' :: '=' :: '=' :: line.data.drop 3 := by
    simpa using startsWith_data line "===" hstart
  have h4 : line.data.dropWhile Char.isWhitespace = line.data := by
    conv_lhs => rw [h3]
    rw [List.dropWhile_cons]
    simp only [show Char.isWhitespace '=' = false by decide, Bool.false_eq_true, if_false]
    exact h3.symm
  have h5 : ("=-=".data) <+: line.data := by
    rw [← h4]
    exact h1.trans h2
  rw [List.prefix_iff_eq_take, h3] at h5
  simp at h5

/-! ## The no-empty-turn invariant (C8) -/

/-- Every turn the scanner emits has non-empty content that is its own
trimmed form. -/
def goodMsg (m : Msg) : Prop :=
  m.content ≠ "" ∧ jsTrim m.content = m.content

lemma goodMsg_saveCollectedContent (msgs : List Msg) (c mode : String)
    (h : ∀ m ∈ msgs, goodMsg m) :
    ∀ m ∈ saveCollectedContent msgs c mode, goodMsg m := by
  unfold saveCollectedContent
  split_ifs with hc
  · intro m hm
    rcases List.mem_cons.mp hm with rfl | hm
    · exact ⟨hc.1, jsTrim_jsTrim c⟩
    · exact h m hm
  · exact h

lemma goodMsg_inline_user (line : String)
    (hstart : jsStartsWith line "===" = true) (hne : jsTrim line ≠ "===") :
    goodMsg { role := "user", content := jsTrim (jsSubstringFrom line 3) } := by
  refine ⟨?_, jsTrim_jsTrim _⟩
  exact inline_payload_ne_empty line "===" '=' ['=', '='] rfl (by decide) (by decide) hstart hne

lemma goodMsg_inline_assistant (line : String)
    (hstart : jsStartsWith line "= =" = true) (hne : jsTrim line ≠ "= =") :
    goodMsg { role := "assistant", content := jsTrim (jsSubstringFrom line 3) } := by
  refine ⟨?_, jsTrim_jsTrim _⟩
  exact inline_payload_ne_empty line "= =" '=' [' ', '='] rfl (by decide) (by decide) hstart hne

lemma goodMsg_processLine (st : ScanState) (line : String) (st' : ScanState)
    (h : processLine st line = some st')
    (hst : ∀ m ∈ st.messages, goodMsg m) :
    ∀ m ∈ st'.messages, goodMsg m := by
  unfold processLine at h
  split_ifs at h with h1 h2 h3 h4 h5 h6 h7 h8 h9 <;> (injection h with h; subst h) <;>
    first
      | exact hst
      | exact goodMsg_saveCollectedContent _ _ _ hst
      | (intro m hm
         rcases List.mem_cons.mp hm with rfl | hm
         · first
             | exact goodMsg_inline_user line h4.1 h3
             | exact goodMsg_inline_assistant line h7.1 h6
         · exact goodMsg_saveCollectedContent _ _ _ hst m hm)

lemma goodMsg_scanLoop (doc : List String) (k : Nat) :
    ∀ (i : Nat) (st : ScanState), (∀ m ∈ st.messages, goodMsg m) →
      ∀ m ∈ (scanLoop doc k i st).messages, goodMsg m := by
  intro i
  induction i with
  | zero =>
    intro st hst
    unfold scanLoop
    split_ifs with hb
    · rcases hp : processLine st (doc.getD 0 "") with _ | st'
      · simpa [hp] using hst
      · simpa [hp] using goodMsg_processLine st _ st' hp hst
    · exact hst
  | succ i ih =>
    intro st hst
    unfold scanLoop
    split_ifs with hb
    · rcases hp : processLine st (doc.getD (i + 1) "") with _ | st'
      · simpa [hp] using hst
      · simpa [hp] using ih st' (goodMsg_processLine st _ st' hp hst)
    · exact hst

/-- **C8** — confirmed: every turn of the returned transcript has
non-empty content equal to its own trimmed form.  The block-flush path
stores `collectingContent.trim()` only when it is non-empty, and the
inline `===` / `= =` paths store a trimmed payload that cannot be empty
(an all-whitespace payload would make the whole line trim to the bare
marker, which is handled by the block-boundary branch instead). -/
theorem getContextMessages_no_empty_turns (doc : List String) (currentLine k : Nat)
    (m : Msg) (hm : m ∈ getContextMessages doc currentLine k) :
    m.content ≠ "" ∧ jsTrim m.content = m.content := by
  have h : ∀ x ∈ getContextMessages doc currentLine k, goodMsg x := by
    simp only [getContextMessages]
    exact goodMsg_saveCollectedContent _ _ _
      (goodMsg_scanLoop doc k currentLine _ (by simp))
  exact h m hm

/-- Witness for C8 at a concrete run: scanning `["=== hi"]` yields the
single user turn `"hi"`, which is non-empty and trimmed. -/
theorem getContextMessages_no_empty_turns_witness :
    ({ role := "user", content := "hi" } : Msg) ∈ getContextMessages ["=== hi"] 0 1 ∧
      ("hi" : String) ≠ "" ∧ jsTrim "hi" = "hi" :=
  ⟨by decide,
   getContextMessages_no_empty_turns ["=== hi"] 0 1 { role := "user", content := "hi" }
     (by decide)⟩

/-! ## Hard terminator behaviour (C2, C3, C9) -/

lemma processLine_terminator (st : ScanState) (line : String)
    (h : jsStartsWith (jsTrim line) "=-=" = true) :
    processLine st line = none := by
  unfold processLine
  simp [h]

/-- **C2** — amended: when the scan meets a hard-terminator line it stops
traversal immediately with the whole accumulation state intact — and that
pending buffer is then *flushed* by the scan's final
`saveCollectedContent` (main.ts line 441), producing a trailing turn
whenever the collected content is non-empty after trimming.  (The claim's
"discarded, not flushed" is what fails; the immediate stop is real.) -/
theorem scanLoop_terminator_halts (doc : List String) (k i : Nat) (st : ScanState)
    (hterm : jsStartsWith (jsTrim (doc.getD i "")) "=-=" = true) :
    scanLoop doc k i st = st ∧
      (st.collectingMode ≠ "none" → jsTrim st.collectingContent ≠ "" →
        saveCollectedContent st.messages st.collectingContent st.collectingMode =
          { role := st.collectingMode, content := jsTrim st.collectingContent } ::
            st.messages) := by
  constructor
  · cases i with
    | zero =>
      unfold scanLoop
      rw [processLine_terminator st _ hterm]
      split_ifs <;> rfl
    | succ i =>
      unfold scanLoop
      rw [processLine_terminator st _ hterm]
      split_ifs <;> rfl
  · intro hmode hcontent
    unfold saveCollectedContent
    rw [if_pos ⟨hcontent, hmode⟩]

/-- Witness for C2's amended theorem: a terminator at line 0 halts the scan
with the pending assistant buffer `"x"` intact, and the final flush turns
it into the turn `{assistant, "x"}`. -/
theorem scanLoop_terminator_halts_witness :
    scanLoop ["=-="] 1 0 ⟨[], "x", "assistant"⟩ = ⟨[], "x", "assistant"⟩ ∧
      saveCollectedContent ([] : List Msg) "x" "assistant" =
        [{ role := "assistant", content := "x" }] :=
  ⟨(scanLoop_terminator_halts ["=-="] 1 0 ⟨[], "x", "assistant"⟩ (by decide)).1,
   (scanLoop_terminator_halts ["=-="] 1 0 ⟨[], "x", "assistant"⟩ (by decide)).2
     (by decide) (by decide)⟩

/-- **C2** — counterexample to the claim as stated: scanning
`["=-=", "hello", "= ="]` from line 2, the `= =` boundary opens an
assistant block, `"hello"` is accumulated, and the terminator at line 0
stops the loop — after which the buffered `"hello"` *is* flushed into a
turn, so content accumulated before the terminator does contribute to the
transcript, contradicting "discarded, not flushed". -/
theorem terminator_buffer_flushed_concrete :
    getContextMessages ["=-=", "hello", "= ="] 2 3 =
      [{ role := "assistant", content := "hello" }] := by
  decide

/-- **C3** — counterexample: the claim says scenario C returns the empty
transcript because "scanning starts strictly above the start line"; in the
code the loop begins *at* `currentLine` (main.ts line 354), so the cursor
line `=== Q2` is scanned and emitted. -/
theorem scenarioC_not_empty :
    getContextMessages ["=== Q1", "-----", "A1", "= =", "=-=", "=== Q2"] 5 10 ≠ [] := by
  decide

/-- **C3** — amended: scanning starts at the cursor line itself; for
scenario C the transcript is exactly the single-line user turn `Q2` from
line 5, while the terminator at line 4 still blocks lines 0-3. -/
theorem scenarioC_result :
    getContextMessages ["=== Q1", "-----", "A1", "= =", "=-=", "=== Q2"] 5 10 =
      [{ role := "user", content := "Q2" }] := by
  decide

/-! ## The wrapped inline marker (C4) -/

/-- **C4** — counterexample: on the document `["===hello==="]` the claim
requires the transcript `[{user, "hello"}]` (payload between the two
markers); the code's inline branch requires `!line.endsWith('===')`
(main.ts line 376), so the line falls into the "ignore" branch and the
transcript is empty. -/
theorem wrapped_marker_ignored_concrete :
    getContextMessages ["===hello==="] 0 5 = [] := by
  decide

/-- **C4** — amended: a line that both starts and ends with `===` but is
not, after trimming, the bare `===` boundary is ignored entirely by the
scanner — no turn is emitted, nothing is accumulated, and the scan state
is unchanged (main.ts line 391: "if === at line end, do not process"). -/
theorem wrapped_marker_line_ignored (st : ScanState) (line : String)
    (hstart : jsStartsWith line "===" = true)
    (hend : jsEndsWith line "===" = true)
    (hne : jsTrim line ≠ "===") :
    processLine st line = some st := by
  have hterm : jsStartsWith (jsTrim line) "=-=" = false :=
    trim_not_terminator_of_triple_eq line hstart
  have hinc : jsIncludes line "===" = true :=
    charsContain_of_isPrefixOf _ _ hstart
  unfold processLine
  simp [hterm, hinc, hne, hend]

/-- Witness for C4's amended theorem at the concrete line `===hello===`. -/
theorem wrapped_marker_line_ignored_witness :
    processLine ⟨[], "buf", "user"⟩ "===hello===" = some ⟨[], "buf", "user"⟩ :=
  wrapped_marker_line_ignored ⟨[], "buf", "user"⟩ "===hello==="
    (by decide) (by decide) (by decide)

/-! ## Plain-content accumulation (C6) -/

/-- **C6** — counterexample: in collecting mode (`assistant`), the line
`"a === b"` — which merely *contains* `===` — is not accumulated into the
buffer as the claim requires: `line.includes('===')` (main.ts line 365)
routes it into the `===` family, where it matches no sub-rule and is
dropped, leaving the state unchanged (buffer still empty). -/
theorem embedded_marker_not_accumulated_concrete :
    processLine ⟨[], "", "assistant"⟩ "a === b" = some ⟨[], "", "assistant"⟩ ∧
      (processLine ⟨[], "", "assistant"⟩ "a === b").map ScanState.collectingContent ≠
        some "a === b" := by
  decide

/-- **C6** — amended: while in a collecting mode, only a line containing
neither `===` nor `= =` as a substring (and not a separator or terminator)
is accumulated verbatim into the buffer, prepended ahead of previously
accumulated lines and separated by a newline; a non-marker line that
merely embeds `===` (not at line start, not the bare boundary after
trimming) is instead silently ignored with the state unchanged. -/
theorem plain_line_accumulation (st : ScanState) (line : String)
    (hmode : st.collectingMode ≠ "none")
    (hterm : jsStartsWith (jsTrim line) "=-=" = false) :
    (jsIncludes line "===" = false → jsIncludes line "= =" = false →
      jsStartsWith line "-----" = false →
      processLine st line = some { st with collectingContent :=
        if st.collectingContent ≠ "" then line ++ "\n" ++ st.collectingContent
        else line }) ∧
    (jsIncludes line "===" = true → jsStartsWith line "===" = false →
      jsTrim line ≠ "===" →
      processLine st line = some st) ∧
    (jsIncludes line "===" = false → jsIncludes line "= =" = true →
      jsStartsWith line "= =" = false → jsTrim line ≠ "= =" →
      processLine st line = some st) := by
  refine ⟨?_, ?_, ?_⟩
  · intro h1 h2 h3
    unfold processLine
    simp [hterm, h1, h2, h3, hmode]
  · intro h1 h2 h3
    unfold processLine
    simp [hterm, h1, h2, h3]
  · intro h1 h2 h3 h4
    unfold processLine
    simp [hterm, h1, h2, h3, h4]

/-- Witness for C6's amended theorem: the token-free line `"hello world"`
is prepended to the pending buffer `"prev"` with a newline separator,
while the embedded-marker lines `"a === b"` and `"a = = b"` both leave the
same state unchanged. -/
theorem plain_line_accumulation_witness :
    processLine ⟨[], "prev", "user"⟩ "hello world" = some ⟨[], "hello world\nprev", "user"⟩ ∧
      processLine ⟨[], "prev", "user"⟩ "a === b" = some ⟨[], "prev", "user"⟩ ∧
      processLine ⟨[], "prev", "user"⟩ "a = = b" = some ⟨[], "prev", "user"⟩ :=
  ⟨(plain_line_accumulation ⟨[], "prev", "user"⟩ "hello world" (by decide) (by decide)).1
     (by decide) (by decide) (by decide),
   (plain_line_accumulation ⟨[], "prev", "user"⟩ "a === b" (by decide) (by decide)).2.1
     (by decide) (by decide) (by decide),
   (plain_line_accumulation ⟨[], "prev", "user"⟩ "a = = b" (by decide) (by decide)).2.2
     (by decide) (by decide) (by decide) (by decide)⟩

/-! ## The terminator as an absolute information barrier (C9) -/

lemma scanLoop_frame (doc1 doc2 : List String) (k t : Nat)
    (hagree : ∀ j, t ≤ j → doc1.getD j "" = doc2.getD j "")
    (hterm : jsStartsWith (jsTrim (doc1.getD t "")) "=-=" = true) :
    ∀ i, t ≤ i → ∀ st, scanLoop doc1 k i st = scanLoop doc2 k i st := by
  intro i
  induction i with
  | zero =>
    intro hti st
    unfold scanLoop
    rw [hagree 0 hti]
  | succ i ih =>
    intro hti st
    unfold scanLoop
    rw [hagree (i + 1) hti]
    split_ifs with hb
    · rcases hp : processLine st (doc2.getD (i + 1) "") with _ | st'
      · simp [hp]
      · rcases Nat.lt_or_ge t (i + 1) with hlt | hge
        · simp only [hp]
          exact ih (by omega) st'
        · have ht1 : t = i + 1 := by omega
          rw [ht1, hagree (i + 1) hti] at hterm
          rw [processLine_terminator st _ hterm] at hp
          exact absurd hp (by simp)
    · rfl

/-- **C9** — confirmed, as a noninterference statement: if a hard
terminator sits at line `t` strictly below the start line, the scan result
depends only on lines `t` and below-the-cursor — any two documents that
agree on every line index `≥ t` produce identical transcripts, so no
content can be drawn from any line physically above the terminator.  The
loop breaks at line `t` before reading anything above it. -/
theorem getContextMessages_terminator_frame (doc1 doc2 : List String)
    (t currentLine k : Nat) (ht : t < currentLine)
    (hagree : ∀ j, t ≤ j → doc1.getD j "" = doc2.getD j "")
    (hterm : jsStartsWith (jsTrim (doc1.getD t "")) "=-=" = true) :
    getContextMessages doc1 currentLine k = getContextMessages doc2 currentLine k := by
  simp only [getContextMessages]
  rw [scanLoop_frame doc1 doc2 k t hagree hterm currentLine (by omega)]

/-- Witness for C9: replacing the line above the terminator (`"SECRET"` by
`"OTHER"`) leaves the transcript unchanged. -/
theorem getContextMessages_terminator_frame_witness :
    getContextMessages ["SECRET", "=-=", "= =", "hi"] 3 2 =
      getContextMessages ["OTHER", "=-=", "= =", "hi"] 3 2 :=
  getContextMessages_terminator_frame ["SECRET", "=-=", "= =", "hi"]
    ["OTHER", "=-=", "= =", "hi"] 1 3 2 (by omega)
    (fun j hj => by
      match j with
      | 0 => omega
      | 1 => rfl
      | 2 => rfl
      | 3 => rfl
      | n + 4 =>
        rw [List.getD_eq_default, List.getD_eq_default] <;> simp)
    (by decide)

/-! ## Writer state machine (C5, C7, C10) -/

/-- **C5** — the code at the failing input: starting a new generation
(`generateResponse`, main.ts lines 155-162) while a writer is already open
(`streamInsertPosition = (3, 8)`, `lastContentLength = 5`,
`isStreaming = true`) performs no state check and raises no error — it
silently resets `streamInsertPosition` to `null` and `lastContentLength`
to `0`, clobbering the open writer's position and byte count.  The
single-active-writer guard required by the claim does not exist in the
source (the spec itself flags this missing guard as a latent bug, §5/§9
of spec.md). -/
theorem generateResponse_reset_clobbers_open_writer :
    generateResponseInitState ⟨some ⟨3, 8⟩, 5, true⟩ = ⟨none, 0, true⟩ := rfl

/-- **C7** — counterexample: with no insertion cursor open (the Idle
state `streamInsertPosition = none`), `finalizeStreamingContent` returns
without writing anything and without any error (its guard is
`if (!editor || !this.streamInsertPosition) return;`, a silent no-op),
and `updateStreamingContent` does not error either — it initializes a
fresh insertion cursor (here at line 2, column 7 after the elegant-mode
separator) instead of reporting an invalid state. -/
theorem idle_writer_no_error_concrete :
    finalizeStreamingContent true ⟨none, 0, false⟩ true "<!-- ts -->" false = [] ∧
      (updateStreamingContent true true ⟨["a", "b", "c", "d"], 1⟩ ⟨none, 0, false⟩
          "Hi").1.streamInsertPosition = some ⟨2, 7⟩ := by
  decide

/-- **C7** — amended: `finalize` with no open insertion cursor (or no
active editor) is a silent no-op — it performs no `replaceRange` call and
signals nothing; `append` with no open cursor likewise raises no
invalid-state error but auto-initializes a new insertion cursor.  Neither
operation propagates an error to the caller. -/
theorem idle_finalize_noop_append_opens (hasEd enableTs added : Bool) (ts : String)
    (L : Nat) (strm : Bool) (em : Bool) (ed : EditorView) (chunk : String) :
    finalizeStreamingContent hasEd ⟨none, L, strm⟩ enableTs ts added = [] ∧
      ((updateStreamingContent true em ed ⟨none, L, strm⟩ chunk).1.streamInsertPosition).isSome
        = true := by
  constructor
  · unfold finalizeStreamingContent
    split_ifs <;> rfl
  · unfold updateStreamingContent
    simp

/-- The per-chunk frame effect of an append once the insertion position is
set: the position is untouched, only `lastContentLength` grows, by the
processed chunk's length, and the single write lands at the fixed line at
column `ch + lastContentLength`. -/
lemma updateStreamingContent_open_step (em : Bool) (ed : EditorView) (p : Pos)
    (L : Nat) (strm : Bool) (c : String) :
    updateStreamingContent true em ed ⟨some p, L, strm⟩ c =
      (⟨some p, L + (processThoughtTags c).length, strm⟩,
       [(⟨p.line, p.ch + L⟩, processThoughtTags c)]) := by
  unfold updateStreamingContent
  simp

lemma appendAll_state (em : Bool) (ed : EditorView) (p : Pos) (strm : Bool) :
    ∀ (chunks : List String) (L : Nat),
      (appendAll true em ed ⟨some p, L, strm⟩ chunks).1 =
        ⟨some p, L + ((chunks.map fun c => (processThoughtTags c).length).sum), strm⟩ := by
  intro chunks
  induction chunks with
  | nil => intro L; simp [appendAll]
  | cons c cs ih =>
    intro L
    simp only [appendAll, updateStreamingContent_open_step]
    rw [ih]
    simp [Nat.add_assoc]

lemma appendAll_writes (em : Bool) (ed : EditorView) (p : Pos) (strm : Bool) :
    ∀ (chunks : List String) (L n : Nat), n < chunks.length →
      (appendAll true em ed ⟨some p, L, strm⟩ chunks).2.getD n (⟨0, 0⟩, "") =
        (⟨p.line, p.ch + L + (((chunks.take n).map fun c => (processThoughtTags c).length).sum)⟩,
         processThoughtTags (chunks.getD n "")) := by
  intro chunks
  induction chunks with
  | nil =>
    intro L n hn
    simp at hn
  | cons c cs ih =>
    intro L n hn
    simp only [appendAll, updateStreamingContent_open_step, List.singleton_append]
    cases n with
    | zero => simp [List.getD]
    | succ n =>
      have hn' : n < cs.length := by simpa using hn
      rw [List.getD_cons_succ, ih (L + (processThoughtTags c).length) n hn']
      simp only [List.take_succ_cons, List.map_cons, List.sum_cons, List.getD_cons_succ,
        Prod.mk.injEq, Pos.mk.injEq]
      exact ⟨⟨trivial, by omega⟩, trivial⟩

/-- **C10** — confirmed: once the insertion position is initialized, a run
of appends leaves `streamInsertPosition` (both fields) and `isStreaming`
unchanged and only grows `lastContentLength`, by exactly the sum of the
thought-tag-processed chunk lengths; and the `n`-th chunk's single
`replaceRange` lands at the fixed line `p.line`, column `p.ch` plus the
initial `lastContentLength` plus the processed lengths of all earlier
chunks — regardless of any newline characters inside the chunks. -/
theorem appendAll_frame (em : Bool) (ed : EditorView) (p : Pos) (strm : Bool)
    (chunks : List String) (L n : Nat) (hn : n < chunks.length) :
    (appendAll true em ed ⟨some p, L, strm⟩ chunks).1 =
      ⟨some p, L + ((chunks.map fun c => (processThoughtTags c).length).sum), strm⟩ ∧
    (appendAll true em ed ⟨some p, L, strm⟩ chunks).2.getD n (⟨0, 0⟩, "") =
      (⟨p.line, p.ch + L + (((chunks.take n).map fun c => (processThoughtTags c).length).sum)⟩,
       processThoughtTags (chunks.getD n "")) := by
  exact ⟨appendAll_state em ed p strm chunks L, appendAll_writes em ed p strm chunks L n hn⟩

/-- Witness for C10 at a concrete run whose first chunk contains a newline
and whose second contains a thought tag: the second chunk is still written
on line 2, at column `5 + 3 + 3` (the processed length of the first chunk
`"a\nb"` is 3 even though it spans a newline). -/
theorem appendAll_frame_witness :
    (appendAll true false ⟨[], 0⟩ ⟨some ⟨2, 5⟩, 3, true⟩ ["a\nb", "<thought>c"]).1 =
      ⟨some ⟨2, 5⟩,
       3 + ((["a\nb", "<thought>c"].map fun c => (processThoughtTags c).length).sum), true⟩ ∧
    (appendAll true false ⟨[], 0⟩ ⟨some ⟨2, 5⟩, 3, true⟩ ["a\nb", "<thought>c"]).2.getD 1
        (⟨0, 0⟩, "") =
      (⟨2, 5 + 3 + (((["a\nb", "<thought>c"].take 1).map
          fun c => (processThoughtTags c).length).sum)⟩,
       processThoughtTags (["a\nb", "<thought>c"].getD 1 "")) :=
  appendAll_frame false ⟨[], 0⟩ ⟨2, 5⟩ true ["a\nb", "<thought>c"] 3 1 (by decide)

end SmartMark
